import Mathlib

/-!
Verification of the migration engine of the migratable-object repository.

The definitions below are a shallow embedding of the TypeScript source:

* `MigratableHandlerImpl` in src/migratable-object.ts — its construction
  (`initializeMigrations`) and its `migrate()` method, embedded as
  `initCurrentVersion`, `migrateWith`, `constructAndMigrate` and the loop
  functions `runBatch` (the inner statement loop) and `runVersions`
  (the outer version loop).
* `runMigrations` in src/demo.ts — the standalone variant with the
  key-validation block, embedded as `runMigrations` with loops
  `runMigBatch` and `runMigVersions`.

The SQL store is modelled by `StoreState`: the `_migrations` ledger table
(one `Row` per INSERT, with a logical write clock supplying the strictly
increasing `applied_at` timestamps of successive writes), a flag recording
whether CREATE TABLE IF NOT EXISTS ran, and the trace of user statements
passed to `sql.exec`.  User statement execution is a parameter
`Exec : Stmt → Except String (Nat × Nat)`: a statement either yields
`(rowsRead, rowsWritten)` or raises an error message.  The two INSERT
statements issued on the ledger by the runner itself are modelled directly
with SQLite semantics: plain INSERT fails with a UNIQUE-constraint error on
a duplicate primary key, INSERT OR REPLACE overwrites the row.
-/

/-- A SQL statement text. -/
abbrev Stmt := String

/-- One row of the `_migrations` ledger table:
`version TEXT PRIMARY KEY, applied_at TIMESTAMP, errors TEXT DEFAULT NULL`.
`errors = none` models SQL NULL. -/
structure Row where
  version : String
  appliedAt : Nat
  errors : Option String
deriving Repr, DecidableEq

/-- The `MigrationResult` record of src/migratable-object.ts. -/
structure MigrationResult where
  version : Int
  query : String
  success : Bool
  rowsRead : Option Nat := none
  rowsWritten : Option Nat := none
  error : Option String := none
deriving Repr, DecidableEq

/-- The execute capability for user statements: each statement either
succeeds with `(rowsRead, rowsWritten)` or raises an error message. -/
abbrev Exec := Stmt → Except String (Nat × Nat)

/-- State of the SQL store as seen by the runner. -/
structure StoreState where
  tableCreated : Bool := false
  ledger : List Row := []
  clock : Nat := 0
  trace : List Stmt := []
deriving Repr, DecidableEq

/-- Numeric value of a list of decimal digit characters. -/
def digitsToNat (l : List Char) : Nat :=
  l.foldl (fun acc c => acc * 10 + (c.toNat - 48)) 0

/-- JS `Number()` applied to a version-key string, restricted to decimal
integer literals: the empty string is 0 (as in JS), a nonempty digit
sequence (leading zeros allowed) parses to its value, a minus sign followed
by a nonempty digit sequence parses to the negated value, and every other
string is NaN, modelled as `none`.  (Forms such as fractional, exponent or
hexadecimal literals, which JS would also accept, are out of this model;
no migration key in the repository uses them.) -/
def jsNumber (s : String) : Option Int :=
  match s.toList with
  | [] => some 0
  | '-' :: rest =>
    if rest ≠ [] ∧ rest.all Char.isDigit then some (-(Int.ofNat (digitsToNat rest)))
    else none
  | l =>
    if l.all Char.isDigit then some (Int.ofNat (digitsToNat l))
    else none

/-- Does the ledger already hold a row for this version string. -/
def hasVersion (ledger : List Row) (v : String) : Bool :=
  ledger.any (fun r => r.version == v)

/-- Plain `INSERT INTO _migrations (version, errors) VALUES (?, ?)` under
SQLite primary-key semantics: the insert fails with a UNIQUE-constraint
error when a row with this version already exists; otherwise the row is
appended with the next write timestamp.  `errs = none` models the
one-column `INSERT INTO _migrations (version) VALUES (?)`, whose `errors`
column takes its NULL default. -/
def ledgerInsert (st : StoreState) (v : String) (errs : Option String) :
    Except String StoreState :=
  if hasVersion st.ledger v then
    .error "UNIQUE constraint failed: _migrations.version"
  else
    .ok { st with ledger := st.ledger ++ [⟨v, st.clock, errs⟩], clock := st.clock + 1 }

/-- `INSERT OR REPLACE INTO _migrations (version) VALUES (?)`: any existing
row with this version is removed and a fresh row with NULL errors takes its
place. -/
def ledgerInsertOrReplace (st : StoreState) (v : String) : StoreState :=
  { st with ledger := (st.ledger.filter (fun r => r.version ≠ v)) ++ [⟨v, st.clock, none⟩],
            clock := st.clock + 1 }

/-- Recency ordering on ledger rows: `recency a b` when `a` was written no
earlier than `b` (descending `applied_at`). -/
def recency (a b : Row) : Prop := b.appliedAt ≤ a.appliedAt

instance : DecidableRel recency := fun a b => Nat.decLe b.appliedAt a.appliedAt

instance : IsTotal Row recency := ⟨fun a b => (Nat.le_total b.appliedAt a.appliedAt)⟩

instance : IsTrans Row recency := ⟨fun _ _ _ h1 h2 => Nat.le_trans h2 h1⟩

/-- The query `SELECT version FROM _migrations WHERE errors IS NULL ORDER BY
applied_at DESC`: the rows with NULL errors, most recently written first. -/
def appliedByRecency (ledger : List Row) : List Row :=
  (ledger.filter (fun r => r.errors.isNone)).insertionSort recency

/-- The current version loaded by `initializeMigrations`
(src/migratable-object.ts lines 56-86): `Number(version)` of the top row of
`appliedByRecency` (with `none` modelling NaN), and 0 — the field default —
when no row with NULL errors exists. -/
def initCurrentVersion (ledger : List Row) : Option Int :=
  match (appliedByRecency ledger).head? with
  | some r => jsNumber r.version
  | none => some 0

/-- `initializeMigrations`: create the ledger table if needed and load the
cached current version. -/
def initializeMigrations (st : StoreState) : StoreState × Option Int :=
  ({ st with tableCreated := true }, initCurrentVersion st.ledger)

/-- `Object.keys(this.migrations).map(Number).filter(!isNaN).sort((a,b) => a-b)`
(src/migratable-object.ts lines 97-100): the numeric values of the keys,
sorted ascending. -/
def versionKeys (migrations : List (String × List Stmt)) : List Int :=
  ((migrations.map Prod.fst).filterMap jsNumber).insertionSort (· ≤ ·)

/-- The pending set (lines 102-105): sorted numeric keys strictly greater
than the effective current version. -/
def newVersions (migrations : List (String × List Stmt)) (cur : Int) : List Int :=
  (versionKeys migrations).filter (fun v => decide (cur < v))

/-- `this.migrations[version.toString()]`: the statement batch registered
under the canonical decimal string of the version number. -/
def lookupBatch (migrations : List (String × List Stmt)) (v : Int) :
    Option (List Stmt) :=
  (migrations.find? (fun p => p.1 == toString v)).map Prod.snd

/-- JSON.stringify of an array of strings (escaping quote and backslash,
which suffices for the statement texts in scope). -/
def jsonEscape (s : String) : String :=
  String.mk (s.toList.foldr
    (fun c acc =>
      if c = '"' then '\\' :: '"' :: acc
      else if c = '\\' then '\\' :: '\\' :: acc
      else c :: acc) [])

/-- Serialized form of the `versionErrors` array written to the ledger. -/
def jsonStringifyStrings (l : List String) : String :=
  "[" ++ String.intercalate "," (l.map (fun s => "\"" ++ jsonEscape s ++ "\"")) ++ "]"

deriving instance DecidableEq for Except

/-- Outcome of one `migrate()` call: the returned result list (`ok`) or the
thrown error message (`error`), together with the store state and the
handler's in-memory current version after the call. -/
structure Outcome where
  result : Except String (List MigrationResult)
  store : StoreState
  cur : Option Int
deriving Repr, DecidableEq

/-- The inner statement loop of `migrate()` (src/migratable-object.ts lines
116-151): each statement of the version's batch is executed in array order;
a success pushes a success result and continues; a failure pushes a failure
result, records the version in the ledger with the serialized error list
(via plain INSERT, whose own UNIQUE-constraint failure would surface
instead), and aborts with the thrown message. -/
def runBatch (execU : Exec) (v : Int) (qs : List Stmt) (st : StoreState)
    (acc : List MigrationResult) :
    Except (String × StoreState × List MigrationResult)
      (StoreState × List MigrationResult) :=
  match qs with
  | [] => .ok (st, acc)
  | q :: rest =>
    match execU q with
    | .ok (rr, rw) =>
      runBatch execU v rest { st with trace := st.trace ++ [q] }
        (acc ++ [{ version := v, query := q, success := true,
                   rowsRead := some rr, rowsWritten := some rw }])
    | .error m =>
      let st1 := { st with trace := st.trace ++ [q] }
      let acc1 := acc ++ [{ version := v, query := q, success := false, error := some m }]
      match ledgerInsert st1 (toString v)
          (some (jsonStringifyStrings ["Query failed: " ++ q ++ ". Error: " ++ m])) with
      | .ok st2 => .error ("Migration " ++ toString v ++ " failed: " ++ m, st2, acc1)
      | .error m2 => .error (m2, st1, acc1)

/-- The outer version loop of `migrate()` (lines 111-161): versions run in
list order; a version whose batch completes is recorded with NULL errors via
a plain INSERT (which itself throws on a duplicate version row) and becomes
the new in-memory current version; any thrown error aborts the loop. -/
def runVersions (execU : Exec) (migrations : List (String × List Stmt))
    (vs : List Int) (st : StoreState) (cur : Option Int)
    (acc : List MigrationResult) : Outcome :=
  match vs with
  | [] => { result := .ok acc, store := st, cur := cur }
  | v :: rest =>
    match lookupBatch migrations v with
    | none =>
      { result := .error "TypeError: migrationQueries is not iterable",
        store := st, cur := cur }
    | some qs =>
      match runBatch execU v qs st acc with
      | .error (m, st1, _) => { result := .error m, store := st1, cur := cur }
      | .ok (st1, acc1) =>
        match ledgerInsert st1 (toString v) none with
        | .error m2 => { result := .error m2, store := st1, cur := cur }
        | .ok st2 => runVersions execU migrations rest st2 (some v) acc1

/-- `migrate()` of `MigratableHandlerImpl` (src/migratable-object.ts lines
91-164) for a handler whose sql capability is present, with in-memory
current version `cur` (`none` modelling NaN; the code reads it as
`this.currentVersion || 0`). -/
def migrateWith (execU : Exec) (migrations : List (String × List Stmt))
    (cur : Option Int) (st : StoreState) : Outcome :=
  let pending := newVersions migrations (cur.getD 0)
  if pending = [] then { result := .ok [], store := st, cur := cur }
  else runVersions execU migrations pending st cur []

/-- `MigratableHandlerImpl` construction (lines 36-51): with a present sql
capability the constructor creates the ledger table and caches the current
version; with `sql` undefined the store is untouched and the cached current
version keeps its field default 0. -/
def constructHandler (hasSql : Bool) (st : StoreState) : StoreState × Option Int :=
  if hasSql then initializeMigrations st else (st, some 0)

/-- Construct a `MigratableHandlerImpl` and call `migrate()` once; with
`sql` undefined `migrate()` returns `[]` at once (line 92). -/
def constructAndMigrate (hasSql : Bool) (execU : Exec)
    (migrations : List (String × List Stmt)) (st : StoreState) : Outcome :=
  let p := constructHandler hasSql st
  if hasSql then migrateWith execU migrations p.2 p.1
  else { result := .ok [], store := p.1, cur := p.2 }

/-- The statement loop of `runMigrations` in src/demo.ts (lines 265-280): a
failing statement is recorded in the ledger by a plain INSERT with the raw
error message, then the wrapped message is returned; a UNIQUE-constraint
failure of that INSERT escapes to the outer catch instead. -/
def runMigBatch (execU : Exec) (v : Int) (qs : List Stmt) (st : StoreState) :
    Except (String × StoreState) StoreState :=
  match qs with
  | [] => .ok st
  | q :: rest =>
    match execU q with
    | .ok _ => runMigBatch execU v rest { st with trace := st.trace ++ [q] }
    | .error m =>
      let st1 := { st with trace := st.trace ++ [q] }
      match ledgerInsert st1 (toString v) (some m) with
      | .ok st2 => .error ("Migration " ++ toString v ++ " failed: " ++ m, st2)
      | .error m2 => .error ("Migration initialization failed: " ++ m2, st1)

/-- The version loop of `runMigrations` in src/demo.ts (lines 262-287): a
completed batch is recorded with `INSERT OR REPLACE`. -/
def runMigVersions (execU : Exec) (migrations : List (String × List Stmt))
    (vs : List Int) (st : StoreState) : Option String × StoreState :=
  match vs with
  | [] => (none, st)
  | v :: rest =>
    match lookupBatch migrations v with
    | none =>
      (some "Migration initialization failed: TypeError: migrationQueries is not iterable", st)
    | some qs =>
      match runMigBatch execU v qs st with
      | .error (m, st1) => (some m, st1)
      | .ok st1 => runMigVersions execU migrations rest (ledgerInsertOrReplace st1 (toString v))

/-- `runMigrations` from src/demo.ts (lines 216-294).  Returns the error
string (JS null modelled as `none`) and the store after the call.  The
key-validation block is embedded exactly as written in the source: line 225
filters the keys with `!isNaN(Number(version))`, i.e. it collects the keys
whose `Number()` is NOT NaN into `invalidVersions`. -/
def runMigrations (execU : Exec) (migrations : List (String × List Stmt))
    (st : StoreState) : Option String × StoreState :=
  let invalidVersions := (migrations.map Prod.fst).filter (fun k => (jsNumber k).isSome)
  if invalidVersions ≠ [] then
    (some ("Migration initialization failed: Migration version keys must be numeric. Not numeric: "
        ++ String.intercalate "," invalidVersions), st)
  else
    let st1 := { st with tableCreated := true }
    let cur : Option Int :=
      match (appliedByRecency st1.ledger).head? with
      | some r => jsNumber r.version
      | none => some 0
    let pend : List Int :=
      match cur with
      | none => []
      | some c =>
        (((migrations.map Prod.fst).filterMap jsNumber).filter
          (fun v => decide (c < v))).insertionSort (· ≤ ·)
    runMigVersions execU migrations pend st1

/-- A user-statement behavior where every statement succeeds. -/
def execOK : Exec := fun _ => .ok (0, 0)

/-- A user-statement behavior where exactly the statement "beta" fails with
message "boom". -/
def execFB : Exec := fun q => if q = "beta" then .error "boom" else .ok (0, 0)

/-- Substring test on character lists, used to state what an errors value
does (not) contain. -/
def listStarts (p l : List Char) : Bool :=
  match p, l with
  | [], _ => true
  | _ :: _, [] => false
  | a :: ps, b :: ls => a == b && listStarts ps ls

/-- Does `hay` contain `needle` as a contiguous substring. -/
def listHasSub (needle hay : List Char) : Bool :=
  match hay with
  | [] => needle.isEmpty
  | _ :: rest => listStarts needle hay || listHasSub needle rest

/-- Modelled from the spec: "the highest version number for which the most
recent ledger row has errors IS NULL", and "0 when no ledger row with
errors IS NULL exists" — the per-version ledger row is unique (primary
key), so this is the maximum numeric version over the rows with NULL
errors.  Used only to compare the spec wording with `initCurrentVersion`,
which the source computes by recency instead. -/
def spec_highestAppliedVersion (ledger : List Row) : Int :=
  ((ledger.filter (fun r => r.errors.isNone)).filterMap
    (fun r => jsNumber r.version)).foldl max 0

/-- Concatenation of the statement batches of a list of versions, in order:
the statements a fully successful run executes. -/
def pendingStatements (migrations : List (String × List Stmt)) :
    List Int → List Stmt
  | [] => []
  | v :: rest => (lookupBatch migrations v).getD [] ++ pendingStatements migrations rest

/-- Example configuration {3, 1, 2} in one insertion order. -/
def migsA : List (String × List Stmt) := [("3", ["S3"]), ("1", ["S1"]), ("2", ["S2"])]

/-- The same configuration as `migsA` in ascending insertion order. -/
def migsB : List (String × List Stmt) := [("1", ["S1"]), ("2", ["S2"]), ("3", ["S3"])]

/-! ### Helper lemmas -/

theorem lem_mem_versionKeys {migs : List (String × List Stmt)} {v : Int} :
    v ∈ versionKeys migs ↔ v ∈ (migs.map Prod.fst).filterMap jsNumber := by
  unfold versionKeys
  exact List.mem_insertionSort _

theorem lem_mem_newVersions {migs : List (String × List Stmt)} {c v : Int} :
    v ∈ newVersions migs c ↔
      v ∈ (migs.map Prod.fst).filterMap jsNumber ∧ c < v := by
  unfold newVersions
  rw [List.mem_filter, lem_mem_versionKeys]
  simp

theorem lem_sorted_versionKeys (migs : List (String × List Stmt)) :
    List.Sorted (· ≤ ·) (versionKeys migs) :=
  List.sorted_insertionSort _ _

theorem lem_sorted_newVersions (migs : List (String × List Stmt)) (c : Int) :
    List.Sorted (· ≤ ·) (newVersions migs c) :=
  (lem_sorted_versionKeys migs).filter _

theorem lem_getLast?_mem {α : Type} : ∀ {l : List α} {a : α},
    l.getLast? = some a → a ∈ l := by
  intro l
  induction l with
  | nil => intro a h; simp at h
  | cons b t ih =>
    intro a h
    cases t with
    | nil =>
      simp at h
      subst h
      exact List.mem_singleton_self b
    | cons c t2 =>
      rw [List.getLast?_cons_cons] at h
      exact List.mem_cons_of_mem _ (ih h)

theorem lem_sorted_le_getLast : ∀ {l : List Int}, List.Sorted (· ≤ ·) l →
    ∀ {x w : Int}, x ∈ l → l.getLast? = some w → x ≤ w := by
  intro l
  induction l with
  | nil => intro _ x w hx; cases hx
  | cons a t ih =>
    intro hs x w hx hg
    cases t with
    | nil =>
      simp at hx hg
      omega
    | cons b t2 =>
      rw [List.getLast?_cons_cons] at hg
      rcases List.mem_cons.mp hx with rfl | hx2
      · exact (List.sorted_cons.mp hs).1 w (lem_getLast?_mem hg)
      · exact ih (List.sorted_cons.mp hs).2 hx2 hg

theorem lem_ledgerInsert_ok {st : StoreState} {v : String} {errs : Option String}
    {st2 : StoreState} (h : ledgerInsert st v errs = .ok st2) :
    st2 = ⟨st.tableCreated, st.ledger ++ [⟨v, st.clock, errs⟩], st.clock + 1, st.trace⟩ ∧
    hasVersion st.ledger v = false := by
  unfold ledgerInsert at h
  by_cases hv : hasVersion st.ledger v
  · simp [hv] at h
  · simp [hv] at h
    exact ⟨h.symm, by simpa using hv⟩

theorem lem_runBatch_ok (execU : Exec) (v : Int) : ∀ (qs : List Stmt)
    (st : StoreState) (acc st1acc1 : List MigrationResult) (st1 : StoreState),
    runBatch execU v qs st acc = .ok (st1, st1acc1) →
    st1 = ⟨st.tableCreated, st.ledger, st.clock, st.trace ++ qs⟩ ∧
    (∀ r ∈ st1acc1, r ∈ acc ∨ r.success = true) := by
  intro qs
  induction qs with
  | nil =>
    intro st acc acc1 st1 h
    simp [runBatch] at h
    obtain ⟨h1, h2⟩ := h
    subst h1
    subst h2
    exact ⟨by simp, fun r hr => Or.inl hr⟩
  | cons q rest ih =>
    intro st acc acc1 st1 h
    unfold runBatch at h
    split at h
    · have hh := ih _ _ _ _ h
      refine ⟨?_, ?_⟩
      · rw [hh.1]
        simp
      · intro r hr
        rcases hh.2 r hr with hmem | hsucc
        · rcases List.mem_append.mp hmem with hacc | hone
          · exact Or.inl hacc
          · simp at hone
            subst hone
            exact Or.inr rfl
        · exact Or.inr hsucc
    · dsimp only at h
      split at h <;> simp at h

theorem lem_runBatch_err (execU : Exec) (v : Int) (q : Stmt) (m : String)
    (qs2 : List Stmt) (hfail : execU q = Except.error m) :
    ∀ (qs1 : List Stmt) (st : StoreState) (acc : List MigrationResult),
    (∀ q1 ∈ qs1, ∃ p, execU q1 = Except.ok p) →
    hasVersion st.ledger (toString v) = false →
    ∃ acc1,
      runBatch execU v (qs1 ++ q :: qs2) st acc =
        .error ("Migration " ++ toString v ++ " failed: " ++ m,
          ⟨st.tableCreated,
           st.ledger ++ [⟨toString v, st.clock,
             some (jsonStringifyStrings ["Query failed: " ++ q ++ ". Error: " ++ m])⟩],
           st.clock + 1,
           st.trace ++ qs1 ++ [q]⟩,
          acc1) := by
  intro qs1
  induction qs1 with
  | nil =>
    intro st acc _ hnv
    refine ⟨acc ++ [{ version := v, query := q, success := false, error := some m }], ?_⟩
    simp only [List.nil_append]
    unfold runBatch
    rw [hfail]
    dsimp only
    simp [ledgerInsert, hnv]
  | cons q1 tl ih =>
    intro st acc hok hnv
    obtain ⟨p, hp⟩ := hok q1 (by simp)
    obtain ⟨rr, rw⟩ := p
    have hok2 : ∀ q2 ∈ tl, ∃ p, execU q2 = Except.ok p := fun q2 hq2 => hok q2 (by simp [hq2])
    obtain ⟨acc1, hrec⟩ := ih { st with trace := st.trace ++ [q1] }
      (acc ++ [{ version := v, query := q1, success := true,
                 rowsRead := some rr, rowsWritten := some rw }]) hok2 hnv
    refine ⟨acc1, ?_⟩
    show runBatch execU v (q1 :: (tl ++ q :: qs2)) st acc = _
    unfold runBatch
    rw [hp]
    dsimp only
    rw [hrec]
    simp

theorem lem_runVersions_ok (execU : Exec) (migs : List (String × List Stmt)) :
    ∀ (vs : List Int) (st : StoreState) (cur : Option Int)
      (acc rs : List MigrationResult),
    (runVersions execU migs vs st cur acc).result = .ok rs →
    (runVersions execU migs vs st cur acc).store.trace
        = st.trace ++ pendingStatements migs vs ∧
    (vs ≠ [] → (runVersions execU migs vs st cur acc).cur = vs.getLast?) ∧
    ((∀ r ∈ acc, r.success = true) → ∀ r ∈ rs, r.success = true) := by
  intro vs
  induction vs with
  | nil =>
    intro st cur acc rs h
    simp [runVersions] at h
    subst h
    exact ⟨by simp [runVersions, pendingStatements], fun hne => absurd rfl hne, fun ha => ha⟩
  | cons v rest ih =>
    intro st cur acc rs h
    rw [show runVersions execU migs (v :: rest) st cur acc =
        (match lookupBatch migs v with
         | none =>
           { result := .error "TypeError: migrationQueries is not iterable",
             store := st, cur := cur }
         | some qs =>
           match runBatch execU v qs st acc with
           | .error (m, st1, _) => { result := .error m, store := st1, cur := cur }
           | .ok (st1, acc1) =>
             match ledgerInsert st1 (toString v) none with
             | .error m2 => { result := .error m2, store := st1, cur := cur }
             | .ok st2 => runVersions execU migs rest st2 (some v) acc1) from rfl] at h ⊢
    cases hlb : lookupBatch migs v with
    | none =>
      rw [hlb] at h
      simp at h
    | some qs =>
      rw [hlb] at h
      dsimp only at h ⊢
      cases hrb : runBatch execU v qs st acc with
      | error e =>
        obtain ⟨m, st1, acc1⟩ := e
        rw [hrb] at h
        simp at h
      | ok p =>
        obtain ⟨st1, acc1⟩ := p
        rw [hrb] at h
        dsimp only at h ⊢
        cases hins : ledgerInsert st1 (toString v) none with
        | error m2 =>
          rw [hins] at h
          simp at h
        | ok st2 =>
          rw [hins] at h
          dsimp only at h ⊢
          have hb := lem_runBatch_ok execU v qs st acc acc1 st1 hrb
          have hi := lem_ledgerInsert_ok hins
          have hrec := ih st2 (some v) acc1 rs h
          refine ⟨?_, ?_, ?_⟩
          · rw [hrec.1, hi.1, hb.1]
            simp [pendingStatements, hlb]
          · intro _
            cases rest with
            | nil =>
              simp [runVersions]
            | cons b t =>
              rw [List.getLast?_cons_cons]
              exact hrec.2.1 (by simp)
          · intro hacc
            refine hrec.2.2 ?_
            intro r hr
            rcases hb.2 r hr with hmem | hsucc
            · exact hacc r hmem
            · exact hsucc

/-! ### Claim theorems -/

/-- C1: the pending set computed by migrate() contains exactly the versions
whose configuration key parses as a number and whose numeric value is
strictly greater than the cached current version — membership depends only
on the keys and that cached value, never on the ledger, so a version at or
below the cached current version is never re-examined or re-applied even if
its ledger row has a non-NULL errors value — and, concretely, with the
ledger recording version 1 as applied (errors NULL) and configuration keys
1, 2, 3, migrate() applies only versions 2 and 3. -/
theorem C1_pending_set :
    (∀ (migs : List (String × List Stmt)) (c v : Int),
      v ∈ newVersions migs c ↔
        ((∃ k, k ∈ migs.map Prod.fst ∧ jsNumber k = some v) ∧ c < v)) ∧
    constructAndMigrate true execOK [("1", ["S1"]), ("2", ["S2"]), ("3", ["S3"])]
        ⟨true, [⟨"1", 0, none⟩], 1, []⟩ =
      ⟨.ok [⟨2, "S2", true, some 0, some 0, none⟩, ⟨3, "S3", true, some 0, some 0, none⟩],
       ⟨true, [⟨"1", 0, none⟩, ⟨"2", 1, none⟩, ⟨"3", 2, none⟩], 3, ["S2", "S3"]⟩,
       some 3⟩ := by
  refine ⟨?_, rfl⟩
  intro migs c v
  rw [lem_mem_newVersions, List.mem_filterMap]

/-- C3 (code-bug evaluation): on src/migratable-object.ts the ledger writes
are plain INSERTs, not insert-or-replace: with the ledger holding version 1
applied (errors NULL) and version 2 recorded as failed (errors non-NULL),
retrying version 2 with a batch that succeeds on every statement makes
migrate() raise the primary-key-conflict error and leave version 2's errors
value untouched, instead of overwriting the row with errors NULL and
returning successfully as the claim states. -/
theorem C3_retry_conflict :
    constructAndMigrate true execOK [("2", ["FIX"])]
        ⟨true, [⟨"1", 0, none⟩, ⟨"2", 1, some "previous failure"⟩], 2, []⟩ =
      ⟨.error "UNIQUE constraint failed: _migrations.version",
       ⟨true, [⟨"1", 0, none⟩, ⟨"2", 1, some "previous failure"⟩], 2, ["FIX"]⟩,
       some 1⟩ := rfl

/-- C4 (code-bug evaluation): the key-validation filter of runMigrations in
src/demo.ts is inverted — it collects the keys whose Number() is NOT NaN —
so the configuration with keys 1, 2 and 2a fails naming the numeric keys
"1,2" rather than "2a", and the configuration whose keys are all numeric
(1 and 2) also fails with the same configuration error; in both cases no
statement executes and the store is returned untouched. -/
theorem C4_validation_inverted :
    runMigrations execOK [("1", ["S1"]), ("2", ["S2"]), ("2a", ["S2a"])] ⟨false, [], 0, []⟩ =
      (some "Migration initialization failed: Migration version keys must be numeric. Not numeric: 1,2",
       ⟨false, [], 0, []⟩) ∧
    runMigrations execOK [("1", ["S1"]), ("2", ["S2"])] ⟨false, [], 0, []⟩ =
      (some "Migration initialization failed: Migration version keys must be numeric. Not numeric: 1,2",
       ⟨false, [], 0, []⟩) :=
  ⟨rfl, rfl⟩

/-- C10: migrate() on a handler constructed with an undefined sql capability
returns the empty result sequence and raises no error, for every migration
set and every store: the store is returned untouched — its table-created
flag, ledger and statement trace are exactly those passed in, so no ledger
table is created and no statement is executed. -/
theorem C10_no_sql (execU : Exec) (migs : List (String × List Stmt)) (st : StoreState) :
    constructAndMigrate false execU migs st = ⟨.ok [], st, some 0⟩ := rfl

/-- C2: when a statement of a pending version fails during migrate(), the
run stops at the failing statement — the trace gains only that version's
earlier statements and the failing one, so no further statement of the
version and no statement of any later pending version executes — a ledger
row for the version is written with a non-NULL errors value, and migrate()
raises an error naming the failing version and the failure message instead
of returning the result sequence. -/
theorem C2_abort_on_failure (execU : Exec) (migs : List (String × List Stmt))
    (cur : Option Int) (st : StoreState) (v : Int) (rest : List Int)
    (qs1 qs2 : List Stmt) (q : Stmt) (m : String)
    (hp : newVersions migs (cur.getD 0) = v :: rest)
    (hb : lookupBatch migs v = some (qs1 ++ q :: qs2))
    (hok : ∀ q1 ∈ qs1, ∃ p, execU q1 = Except.ok p)
    (hfail : execU q = Except.error m)
    (hnv : hasVersion st.ledger (toString v) = false) :
    migrateWith execU migs cur st =
      ⟨.error ("Migration " ++ toString v ++ " failed: " ++ m),
       ⟨st.tableCreated,
        st.ledger ++ [⟨toString v, st.clock,
          some (jsonStringifyStrings ["Query failed: " ++ q ++ ". Error: " ++ m])⟩],
        st.clock + 1,
        st.trace ++ qs1 ++ [q]⟩,
       cur⟩ := by
  obtain ⟨acc1, herr⟩ := lem_runBatch_err execU v q m qs2 hfail qs1 st [] hok hnv
  unfold migrateWith
  dsimp only
  rw [hp]
  rw [if_neg (List.cons_ne_nil v rest)]
  unfold runVersions
  rw [hb]
  dsimp only
  rw [herr]

/-- Witness for C2 at a concrete three-statement batch whose middle
statement fails. -/
theorem C2_abort_on_failure_witness :
    migrateWith execFB [("1", ["alpha", "beta", "gamma"])] (some 0) ⟨false, [], 0, []⟩ =
      ⟨.error "Migration 1 failed: boom",
       ⟨false, [⟨"1", 0, some "[\"Query failed: beta. Error: boom\"]"⟩], 1, ["alpha", "beta"]⟩,
       some 0⟩ :=
  C2_abort_on_failure execFB [("1", ["alpha", "beta", "gamma"])] (some 0) ⟨false, [], 0, []⟩
    1 [] ["alpha"] ["gamma"] "beta" "boom" rfl rfl
    (fun q1 hq1 => by
      rw [List.mem_singleton] at hq1
      subst hq1
      exact ⟨(0, 0), rfl⟩)
    rfl rfl

/-- C8 (counterexample): the errors value recorded for a failing version
does not include all statement texts of the batch: with version 1's batch
being the two statements "alpha" then "beta" and "beta" failing with
message "boom", the recorded errors value names only "beta" — the text
"alpha" does not occur in it. -/
theorem C8_counterexample :
    (migrateWith execFB [("1", ["alpha", "beta"])] (some 0) ⟨false, [], 0, []⟩).store.ledger =
      [⟨"1", 0, some "[\"Query failed: beta. Error: boom\"]"⟩] ∧
    listHasSub "alpha".toList "[\"Query failed: beta. Error: boom\"]".toList = false ∧
    listHasSub "beta".toList "[\"Query failed: beta. Error: boom\"]".toList = true :=
  ⟨rfl, by decide, by decide⟩

/-- C8 (amended): the errors value written to a failing version's ledger
row is the JSON serialization of a one-element array describing exactly the
failing statement: its text and its error message; the texts of the other
statements of the batch are not part of it. -/
theorem C8_error_record (execU : Exec) (v : Int) (q : Stmt) (m : String)
    (qs1 qs2 : List Stmt) (st : StoreState) (acc : List MigrationResult)
    (hok : ∀ q1 ∈ qs1, ∃ p, execU q1 = Except.ok p)
    (hfail : execU q = Except.error m)
    (hnv : hasVersion st.ledger (toString v) = false) :
    ∃ acc1,
      runBatch execU v (qs1 ++ q :: qs2) st acc =
        .error ("Migration " ++ toString v ++ " failed: " ++ m,
          ⟨st.tableCreated,
           st.ledger ++ [⟨toString v, st.clock,
             some (jsonStringifyStrings ["Query failed: " ++ q ++ ". Error: " ++ m])⟩],
           st.clock + 1,
           st.trace ++ qs1 ++ [q]⟩,
          acc1) :=
  lem_runBatch_err execU v q m qs2 hfail qs1 st acc hok hnv

/-- Witness for the amended C8 at a concrete two-statement batch. -/
theorem C8_error_record_witness :
    ∃ acc1,
      runBatch execFB 1 (["alpha"] ++ "beta" :: []) ⟨false, [], 0, []⟩ [] =
        .error ("Migration 1 failed: boom",
          ⟨false, [⟨"1", 0, some "[\"Query failed: beta. Error: boom\"]"⟩], 1,
           ["alpha", "beta"]⟩,
          acc1) :=
  C8_error_record execFB 1 "beta" "boom" ["alpha"] [] ⟨false, [], 0, []⟩ []
    (fun q1 hq1 => by
      rw [List.mem_singleton] at hq1
      subst hq1
      exact ⟨(0, 0), rfl⟩)
    rfl rfl

/-- C9: every MigrationResult contained in a result sequence actually
returned (not thrown past) by migrate() has success = true: failure entries
are appended only on the path that raises an error before returning. -/
theorem C9_returned_all_success (execU : Exec) (migs : List (String × List Stmt))
    (cur : Option Int) (st : StoreState) (rs : List MigrationResult)
    (h : (migrateWith execU migs cur st).result = .ok rs) :
    ∀ r ∈ rs, r.success = true := by
  by_cases hp : newVersions migs (cur.getD 0) = []
  · have heq : migrateWith execU migs cur st = ⟨.ok [], st, cur⟩ := by
      unfold migrateWith
      dsimp only
      rw [hp]
      simp
    rw [heq] at h
    simp at h
    subst h
    simp
  · have heq : migrateWith execU migs cur st
        = runVersions execU migs (newVersions migs (cur.getD 0)) st cur [] := by
      unfold migrateWith
      dsimp only
      rw [if_neg hp]
    rw [heq] at h
    exact (lem_runVersions_ok execU migs _ st cur [] rs h).2.2 (by simp)

/-- Witness for C9 at a concrete successful run. -/
theorem C9_returned_all_success_witness :
    ({ version := 1, query := "S1", success := true, rowsRead := some 0,
       rowsWritten := some 0, error := none } : MigrationResult).success = true :=
  C9_returned_all_success execOK [("1", ["S1"])] (some 0) ⟨false, [], 0, []⟩
    [⟨1, "S1", true, some 0, some 0, none⟩] rfl
    ⟨1, "S1", true, some 0, some 0, none⟩ (by simp)

/-- C5: migrate() is idempotent: with an empty pending set it returns the
empty result sequence and leaves the store — ledger, trace and table flag —
exactly as passed in (zero writes), and a second migrate() call immediately
after a fully successful call, with the same configuration, returns an
empty sequence and leaves the store of the first call unchanged. -/
theorem C5_idempotence :
    (∀ (execU : Exec) (migs : List (String × List Stmt)) (cur : Option Int) (st : StoreState),
      newVersions migs (cur.getD 0) = [] →
      migrateWith execU migs cur st = ⟨.ok [], st, cur⟩) ∧
    (∀ (execU : Exec) (migs : List (String × List Stmt)) (cur : Option Int)
       (st : StoreState) (rs : List MigrationResult),
      (migrateWith execU migs cur st).result = .ok rs →
      migrateWith execU migs (migrateWith execU migs cur st).cur
          (migrateWith execU migs cur st).store
        = ⟨.ok [], (migrateWith execU migs cur st).store,
           (migrateWith execU migs cur st).cur⟩) := by
  have hempty : ∀ (execU : Exec) (migs : List (String × List Stmt))
      (cur : Option Int) (st : StoreState),
      newVersions migs (cur.getD 0) = [] →
      migrateWith execU migs cur st = ⟨.ok [], st, cur⟩ := by
    intro execU migs cur st h
    unfold migrateWith
    dsimp only
    rw [h]
    simp
  refine ⟨hempty, ?_⟩
  intro execU migs cur st rs h
  cases hp : newVersions migs (cur.getD 0) with
  | nil =>
    rw [hempty execU migs cur st hp]
    exact hempty execU migs cur st hp
  | cons v rest =>
    have heq : migrateWith execU migs cur st
        = runVersions execU migs (v :: rest) st cur [] := by
      unfold migrateWith
      dsimp only
      rw [hp]
      rw [if_neg (List.cons_ne_nil v rest)]
    rw [heq] at h ⊢
    have hl := lem_runVersions_ok execU migs (v :: rest) st cur [] rs h
    have hcur : (runVersions execU migs (v :: rest) st cur []).cur = (v :: rest).getLast? :=
      hl.2.1 (List.cons_ne_nil v rest)
    obtain ⟨w, hw⟩ : ∃ w, (v :: rest).getLast? = some w := by
      cases hg2 : (v :: rest).getLast? with
      | none => exact absurd (List.getLast?_eq_none_iff.mp hg2) (List.cons_ne_nil v rest)
      | some w => exact ⟨w, rfl⟩
    have hwmem : w ∈ (v :: rest) := lem_getLast?_mem hw
    have hwp : w ∈ (migs.map Prod.fst).filterMap jsNumber ∧ cur.getD 0 < w := by
      have hmem2 : w ∈ newVersions migs (cur.getD 0) := by rw [hp]; exact hwmem
      exact lem_mem_newVersions.mp hmem2
    have hpend2 : newVersions migs w = [] := by
      apply List.eq_nil_iff_forall_not_mem.mpr
      intro x hx
      have hxp := lem_mem_newVersions.mp hx
      have hx0 : x ∈ newVersions migs (cur.getD 0) :=
        lem_mem_newVersions.mpr ⟨hxp.1, lt_trans hwp.2 hxp.2⟩
      have hxle : x ≤ w := by
        have hsort : List.Sorted (· ≤ ·) (v :: rest) := by
          rw [← hp]
          exact lem_sorted_newVersions migs (cur.getD 0)
        rw [hp] at hx0
        exact lem_sorted_le_getLast hsort hx0 hw
      exact absurd hxp.2 (not_lt.mpr hxle)
    rw [hcur, hw]
    exact hempty execU migs (some w) _ hpend2

/-- Witness for C5: a call with an empty pending set is a no-op, and so is
the call after a fully successful migrate(). -/
theorem C5_idempotence_witness :
    (migrateWith execOK [("1", ["S1"])] (some 5) ⟨true, [⟨"5", 0, none⟩], 1, []⟩ =
      ⟨.ok [], ⟨true, [⟨"5", 0, none⟩], 1, []⟩, some 5⟩) ∧
    migrateWith execOK [("1", ["S1"])] (some 1) ⟨false, [⟨"1", 0, none⟩], 1, ["S1"]⟩ =
      ⟨.ok [], ⟨false, [⟨"1", 0, none⟩], 1, ["S1"]⟩, some 1⟩ :=
  ⟨C5_idempotence.1 execOK [("1", ["S1"])] (some 5) ⟨true, [⟨"5", 0, none⟩], 1, []⟩ rfl,
   C5_idempotence.2 execOK [("1", ["S1"])] (some 0) ⟨false, [], 0, []⟩
     [⟨1, "S1", true, some 0, some 0, none⟩] rfl⟩

/-- C6: migrate() processes the pending versions in ascending numeric order:
the pending list is sorted (strictly, whenever the numeric key values are
distinct), it is the same list for any permutation of the configuration
entries, and a run that returns successfully has executed exactly the
concatenation of the pending versions' batches in that order — each batch
in array order — appended to the prior trace, so no version or statement is
skipped ahead of an earlier one. -/
theorem C6_ordering :
    (∀ (migs : List (String × List Stmt)) (c : Int),
      List.Sorted (· ≤ ·) (newVersions migs c)) ∧
    (∀ (migs : List (String × List Stmt)) (c : Int),
      ((migs.map Prod.fst).filterMap jsNumber).Nodup →
      List.Sorted (· < ·) (newVersions migs c)) ∧
    (∀ (migs migs2 : List (String × List Stmt)) (c : Int), migs.Perm migs2 →
      newVersions migs c = newVersions migs2 c) ∧
    (∀ (execU : Exec) (migs : List (String × List Stmt)) (cur : Option Int)
       (st : StoreState) (rs : List MigrationResult),
      (migrateWith execU migs cur st).result = .ok rs →
      (migrateWith execU migs cur st).store.trace
        = st.trace ++ pendingStatements migs (newVersions migs (cur.getD 0))) := by
  refine ⟨lem_sorted_newVersions, ?_, ?_, ?_⟩
  · intro migs c hnd
    have h2 : (versionKeys migs).Nodup :=
      ((List.perm_insertionSort _ _).nodup_iff).mpr hnd
    exact (lem_sorted_newVersions migs c).lt_of_le (h2.filter _)
  · intro migs migs2 c hperm
    have h1 : versionKeys migs = versionKeys migs2 := by
      apply List.eq_of_perm_of_sorted
        (((List.perm_insertionSort _ _).trans
            ((hperm.map Prod.fst).filterMap jsNumber)).trans
          (List.perm_insertionSort _ _).symm)
        (List.sorted_insertionSort _ _) (List.sorted_insertionSort _ _)
    unfold newVersions
    rw [h1]
  · intro execU migs cur st rs h
    by_cases hp : newVersions migs (cur.getD 0) = []
    · have heq : migrateWith execU migs cur st = ⟨.ok [], st, cur⟩ := by
        unfold migrateWith
        dsimp only
        rw [hp]
        simp
      rw [heq, hp]
      simp [pendingStatements]
    · have heq : migrateWith execU migs cur st
          = runVersions execU migs (newVersions migs (cur.getD 0)) st cur [] := by
        unfold migrateWith
        dsimp only
        rw [if_neg hp]
      rw [heq] at h ⊢
      exact (lem_runVersions_ok execU migs _ st cur [] rs h).1

/-- Witness for C6 at the concrete configuration {3, 1, 2} given in two
insertion orders. -/
theorem C6_ordering_witness :
    List.Sorted (· < ·) (newVersions migsA 0) ∧
    newVersions migsA 0 = newVersions migsB 0 ∧
    (migrateWith execOK migsA (some 0) ⟨false, [], 0, []⟩).store.trace =
      ["S1", "S2", "S3"] :=
  ⟨C6_ordering.2.1 migsA 0 (by decide),
   C6_ordering.2.2.1 migsA migsB 0 (by decide),
   C6_ordering.2.2.2 execOK migsA (some 0) ⟨false, [], 0, []⟩
     [⟨1, "S1", true, some 0, some 0, none⟩, ⟨2, "S2", true, some 0, some 0, none⟩,
      ⟨3, "S3", true, some 0, some 0, none⟩] rfl⟩

/-- C7 (counterexample): the cached current version is not in general the
highest applied version: in a ledger where version 3 was written before
version 2 and both have errors NULL, the recency query yields 2 while the
highest applied version is 3. -/
theorem C7_counterexample :
    initCurrentVersion [⟨"3", 0, none⟩, ⟨"2", 1, none⟩] = some 2 ∧
    spec_highestAppliedVersion [⟨"3", 0, none⟩, ⟨"2", 1, none⟩] = 3 ∧
    initCurrentVersion [⟨"3", 0, none⟩, ⟨"2", 1, none⟩]
      ≠ some (spec_highestAppliedVersion [⟨"3", 0, none⟩, ⟨"2", 1, none⟩]) :=
  ⟨rfl, rfl, by decide⟩

/-- C7 (amended): the cached current version loaded at construction is
Number(version) of the most recently written ledger row with errors IS NULL
— a row of maximal applied_at among the rows with NULL errors — and it is 0
when no ledger row with errors IS NULL exists; such a top row exists
whenever some row has NULL errors. -/
theorem C7_current_version (L : List Row) :
    ((∀ r ∈ L, r.errors ≠ none) → initCurrentVersion L = some 0) ∧
    (∀ r, (appliedByRecency L).head? = some r →
      r ∈ L ∧ r.errors = none ∧
      (∀ r2 ∈ L, r2.errors = none → r2.appliedAt ≤ r.appliedAt) ∧
      initCurrentVersion L = jsNumber r.version) ∧
    (L.filter (fun r => r.errors.isNone) ≠ [] →
      ∃ r, (appliedByRecency L).head? = some r) := by
  refine ⟨?_, ?_, ?_⟩
  · intro hno
    have hf : L.filter (fun r => r.errors.isNone) = [] := by
      apply List.filter_eq_nil_iff.mpr
      intro a ha
      simp [Option.isNone_iff_eq_none, hno a ha]
    unfold initCurrentVersion appliedByRecency
    rw [hf]
    rfl
  · intro r hr
    cases habr : appliedByRecency L with
    | nil =>
      rw [habr] at hr
      simp at hr
    | cons a tl =>
      rw [habr] at hr
      simp at hr
      subst hr
      have hfil : a ∈ L.filter (fun r => r.errors.isNone) := by
        have h2 : a ∈ appliedByRecency L := by
          rw [habr]
          exact List.mem_cons_self a tl
        exact (List.mem_insertionSort _).mp h2
      have hmemL : a ∈ L := (List.mem_filter.mp hfil).1
      have herr : a.errors = none := by
        have h3 := (List.mem_filter.mp hfil).2
        simpa [Option.isNone_iff_eq_none] using h3
      refine ⟨hmemL, herr, ?_, ?_⟩
      · intro r2 hr2 herr2
        have hr2fil : r2 ∈ L.filter (fun r => r.errors.isNone) :=
          List.mem_filter.mpr ⟨hr2, by simp [herr2]⟩
        have hr2mem : r2 ∈ appliedByRecency L := (List.mem_insertionSort _).mpr hr2fil
        have hsrt : List.Sorted recency (appliedByRecency L) :=
          List.sorted_insertionSort _ _
        rw [habr] at hr2mem hsrt
        rcases List.mem_cons.mp hr2mem with rfl | h4
        · exact le_refl _
        · exact (List.sorted_cons.mp hsrt).1 r2 h4
      · have hh : (appliedByRecency L).head? = some a := by rw [habr]; rfl
        unfold initCurrentVersion
        rw [hh]
  · intro hne
    cases habr : appliedByRecency L with
    | nil =>
      exfalso
      apply hne
      have hperm : List.Perm (appliedByRecency L) (L.filter (fun r => r.errors.isNone)) :=
        List.perm_insertionSort _ _
      rw [habr] at hperm
      exact hperm.symm.eq_nil
    | cons a tl => exact ⟨a, rfl⟩

/-- Witness for the amended C7: at a ledger with only failed rows the
cached current version is 0; at a concrete three-row ledger the top row of
the recency query determines the cached current version and such a top row
exists. -/
theorem C7_current_version_witness :
    initCurrentVersion [⟨"4", 0, some "x"⟩] = some 0 ∧
    initCurrentVersion [⟨"1", 0, none⟩, ⟨"9", 3, some "e"⟩, ⟨"2", 5, none⟩] = jsNumber "2" ∧
    ∃ r, (appliedByRecency [⟨"1", 0, none⟩, ⟨"9", 3, some "e"⟩, ⟨"2", 5, none⟩]).head?
        = some r :=
  ⟨(C7_current_version [⟨"4", 0, some "x"⟩]).1 (by decide),
   ((C7_current_version [⟨"1", 0, none⟩, ⟨"9", 3, some "e"⟩, ⟨"2", 5, none⟩]).2.1
     ⟨"2", 5, none⟩ rfl).2.2.2,
   (C7_current_version [⟨"1", 0, none⟩, ⟨"9", 3, some "e"⟩, ⟨"2", 5, none⟩]).2.2
     (by decide)⟩
